import Mathlib

/-
Verification development for the page-excel-generator pipeline
(`src/__main__.py`, class `PageGenerator`).

The program reads a rectangular grid of spreadsheet cells, validates a set of
required header columns, rewrites the cells of "image" columns into prefixed
paths, and renders one HTML page per data row by substituting `[<column name>]`
tokens in a template.  Pure fragments of the Python code are embedded as Lean
functions over `List Char` (Python `str`) and `Cell` (a spreadsheet cell
value); code that raises an exception is embedded in `Except Unit`.  External
collaborators (the filesystem existence check, the openpyxl workbook, the
network image probe) are modelled as explicit oracle arguments.
-/

/-- Cell values as produced by openpyxl: a string, a number, or `None` for an
empty/missing cell.  Python's `str()` of a cell is `pyStr`. -/
inductive Cell where
| str (s : List Char)
| num (n : Int)
| null
deriving DecidableEq, Repr

/-- Python `str(...)` applied to a cell value (used by f-strings in the
source): strings unchanged, numbers printed in decimal, `None` prints as
`"None"`. -/
def pyStr : Cell → List Char
| Cell.str s => s
| Cell.num n => (toString n).data
| Cell.null => "None".data

/-- Decidable equality for `Except` results, by cases on the constructors. -/
instance {ε α : Type} [DecidableEq ε] [DecidableEq α] : DecidableEq (Except ε α) := fun x y =>
  match x, y with
  | Except.error a, Except.error b =>
    if h : a = b then isTrue (by rw [h]) else isFalse (fun hx => h (Except.error.inj hx))
  | Except.ok a, Except.ok b =>
    if h : a = b then isTrue (by rw [h]) else isFalse (fun hx => h (Except.ok.inj hx))
  | Except.error _, Except.ok _ => isFalse (fun hx => Except.noConfusion hx)
  | Except.ok _, Except.error _ => isFalse (fun hx => Except.noConfusion hx)

/-- Recursion worker for `replaceList`, structural on a fuel bound so that the
function reduces by evaluation; `replaceList` always supplies enough fuel, and
`replaceListAux_congr` below shows any sufficient fuel gives the same result. -/
def replaceListAux (pat rep : List Char) : Nat → List Char → List Char
| _, [] => []
| 0, c :: rest => c :: rest
| fuel + 1, c :: rest =>
  if pat ≠ [] ∧ pat.isPrefixOf (c :: rest) then
    rep ++ replaceListAux pat rep fuel ((c :: rest).drop pat.length)
  else
    c :: replaceListAux pat rep fuel rest

/-- Python `content.replace(pat, rep)`: replace every occurrence of `pat`,
scanning left to right, non-overlapping.  The `pat = []` case (never exercised
by the program, whose patterns are nonempty tokens) leaves the string
unchanged. -/
def replaceList (pat rep : List Char) (s : List Char) : List Char :=
  replaceListAux pat rep s.length s

/-- Python `pat in s` for strings: substring test. -/
def isSubstring (pat : List Char) : List Char → Bool
| [] => pat.isEmpty
| c :: rest => pat.isPrefixOf (c :: rest) || isSubstring pat rest

/-- The placeholder token `f"[{name}]"` for a column name. -/
def token (name : List Char) : List Char := '[' :: (name ++ [']'])

/-- Slug derivation from `generate_pages`:
`page_title.lower().replace(" ", "-")`. -/
def slugify (s : List Char) : List Char := replaceList [' '] ['-'] (s.map Char.toLower)

/-- Python `str(n)` for a nonnegative integer (used for image dimensions). -/
def natStr (n : Nat) : List Char := (Nat.repr n).data

/-- The openpyxl worksheet, modelled as an external collaborator: its used
range (`max_row`, `max_column`) and a total cell lookup.  openpyxl's
`cell(row, column).value` is total on 1-based indices and yields `None` for
missing cells, so `cellValue` is a total function into `Cell`. -/
structure Workbook where
  maxRow : Nat
  maxCol : Nat
  cellValue : Nat → Nat → Cell

/-- The nested loops of `__load_excel_data__`: rows `1..max_row`, columns
`1..max_column`, collecting `cell(row, column).value` row-major. -/
def sheetOf (wb : Workbook) : List (List Cell) :=
  (List.range wb.maxRow).map fun r =>
    (List.range wb.maxCol).map fun c => wb.cellValue (r + 1) (c + 1)

/-- `__load_excel_data__`: raise `FileNotFoundError` when the excel path does
not exist, otherwise read the whole used grid of the sheet. -/
def loadExcelData (pathExists : Bool) (wb : Workbook) : Except Unit (List (List Cell)) :=
  if pathExists = false then Except.error () else Except.ok (sheetOf wb)

/-- `self.columns["row"]`: the 1-based header row index. -/
def columnsRow : Nat := 1

/-- `self.columns["names"]`: the required column names. -/
def columnsNames : List (List Char) :=
  ["url".data, "title".data, "description".data, "image url".data, "site name".data]

/-- `__save_header__`: the header is row `columns_row - 1` (0-based) of the
loaded data. -/
def saveHeader (sheet : List (List Cell)) : List Cell := sheet.getD (columnsRow - 1) []

/-- `__validate_excel_columns__`: walk the required names in order; on the
first name that is not a member of the header, raise a `ValueError` whose
message carries that name and the full observed header. -/
def validateExcelColumns : List (List Char) → List Cell → Except (List Char × List Cell) Unit
| [], _ => Except.ok ()
| n :: rest, header =>
  if Cell.str n ∈ header then validateExcelColumns rest header
  else Except.error (n, header)

/-- The test `"image" in str(column_name)` from `__replace_images_paths__`. -/
def isImageName (c : Cell) : Bool := isSubstring ("image".data) (pyStr c)

/-- The index-collection loop of `__replace_images_paths__`: for each header
cell whose stringification contains `"image"`, append
`self.excel_header.index(column_name)` (the first index holding that value). -/
def imageColumnIndexes (header : List Cell) : List Nat :=
  header.foldl (fun acc c => if isImageName c then acc ++ [List.indexOf c header] else acc) []

/-- The rewritten path `f"{DOMAIN}/{IMAGES_FOLDER}/{image_file}"`. -/
def newImagePath (domain imagesFolder : List Char) (c : Cell) : List Char :=
  domain ++ '/' :: (imagesFolder ++ '/' :: pyStr c)

/-- The per-row mutation loop of `__replace_images_paths__`: for each collected
column index, overwrite the cell with the prefixed path built from its current
value. -/
def rewriteRow (domain imagesFolder : List Char) (idxs : List Nat) (row : List Cell) : List Cell :=
  idxs.foldl
    (fun r i => r.set i (Cell.str (newImagePath domain imagesFolder (r.getD i Cell.null)))) row

/-- `__replace_images_paths__` on the whole sheet: rows before
`self.columns_row` (the header row) are untouched, every later row is rewritten
in place. -/
def replaceImagesPaths (domain imagesFolder : List Char) (sheet : List (List Cell)) :
    List (List Cell) :=
  sheet.take columnsRow ++
    (sheet.drop columnsRow).map
      (rewriteRow domain imagesFolder (imageColumnIndexes (saveHeader sheet)))

/-- The slug-source column name used by `generate_pages`:
`self.excel_header.index("description")`. -/
def descriptionName : List Char := "description".data

/-- The image-url column name used by `generate_pages`. -/
def imageUrlName : List Char := "image url".data

/-- The per-page file name appended to the slug folder:
`os.path.join(html_folder, "index.html")`. -/
def indexHtmlSuffix : List Char := '/' :: "index.html".data

/-- The folder-derivation prefix of the `generate_pages` loop body:
look up the `"description"` column (`list.index` raises when absent, as does
`row[i]` when the row is too short), skip the row (`continue`) when the cell is
falsy (`None`, `""`, `0`), raise when the truthy cell has no `.lower()`
(a number), otherwise produce the slug. -/
def slugOf (header row : List Cell) : Except Unit (Option (List Char)) :=
  if _h1 : List.indexOf (Cell.str descriptionName) header < header.length then
    if _h2 : List.indexOf (Cell.str descriptionName) header < row.length then
      match row.getD (List.indexOf (Cell.str descriptionName) header) Cell.null with
      | Cell.null => Except.ok none
      | Cell.str s => if s = [] then Except.ok none else Except.ok (some (slugify s))
      | Cell.num n => if n = 0 then Except.ok none else Except.error ()
    else Except.error ()
  else Except.error ()

/-- One iteration of the substitution loop in `generate_pages`:
`cell_index = row.index(cell)` (first index holding this cell's value),
`current_column_name = self.excel_header[cell_index]` (raises when out of
range), then `content.replace(f"[{name}]", cell)` — which raises `TypeError`
when the cell is not a string. -/
def renderStep (header row : List Cell) (content : List Char) (cell : Cell) :
    Except Unit (List Char) :=
  match cell with
  | Cell.str s =>
    if _h : List.indexOf (Cell.str s) row < header.length then
      Except.ok
        (replaceList (token (pyStr (header.getD (List.indexOf (Cell.str s) row) Cell.null)))
          s content)
    else Except.error ()
  | _ => Except.error ()

/-- The whole substitution loop of `generate_pages`, starting from the template
text. -/
def renderRow (header row : List Cell) (template : List Char) : Except Unit (List Char) :=
  row.foldlM (renderStep header row) template

/-- Outcome of the external image probe (`requests.get` plus `PIL`):
the request raised (caught by the bare `except`), the body failed to decode as
an image (`Image.open` raises outside the `try`), or a decoded image with its
pixel size. -/
inductive FetchOutcome where
| fetchFail
| badImage
| image (w h : Nat)
deriving DecidableEq

/-- `__get_image_size__`: a failed fetch returns the `(0, 0)` sentinel; a
decode failure propagates an uncaught exception; otherwise the image size. -/
def getImageSize (fetch : Cell → FetchOutcome) (url : Cell) : Except Unit (Nat × Nat) :=
  match fetch url with
  | FetchOutcome.fetchFail => Except.ok (0, 0)
  | FetchOutcome.badImage => Except.error ()
  | FetchOutcome.image w h => Except.ok (w, h)

/-- The image-url cell of a row: `row[self.excel_header.index("image url")]`. -/
def urlCellOf (header row : List Cell) : Cell :=
  row.getD (List.indexOf (Cell.str imageUrlName) header) Cell.null

/-- The body of the per-row loop of `generate_pages`: derive the slug (or skip
the row), substitute every cell into the template, probe the image size —
skipping the row on the `(0, 0)` sentinel (`if not image_width and not
image_height: continue`) — substitute the `[image width]`/`[image height]`
tokens, and write `index.html` inside the slug folder.  `Except.ok none` is a
skipped row; `Except.error ()` is an exception escaping the loop body (which
aborts the whole run, since the loop has no handler). -/
def processRow (fetch : Cell → FetchOutcome) (header : List Cell) (template : List Char)
    (row : List Cell) : Except Unit (Option (List Char × List Char)) :=
  match slugOf header row with
  | Except.error e => Except.error e
  | Except.ok none => Except.ok none
  | Except.ok (some slug) =>
    match renderRow header row template with
    | Except.error e => Except.error e
    | Except.ok content =>
      if _h1 : List.indexOf (Cell.str imageUrlName) header < header.length then
        if _h2 : List.indexOf (Cell.str imageUrlName) header < row.length then
          match getImageSize fetch (urlCellOf header row) with
          | Except.error e => Except.error e
          | Except.ok (w, h) =>
            if w = 0 ∧ h = 0 then Except.ok none
            else
              Except.ok (some (slug ++ indexHtmlSuffix,
                replaceList ("[image height]".data) (natStr h)
                  (replaceList ("[image width]".data) (natStr w) content)))
        else Except.error ()
      else Except.error ()

/-- The page a row contributes to the output, when the run survives it:
`some (path, content)` for a written file, `none` for a skipped row.  (On an
erroring row the run never reaches the write.) -/
def pageOf (fetch : Cell → FetchOutcome) (header : List Cell) (template : List Char)
    (row : List Cell) : Option (List Char × List Char) :=
  match processRow fetch header template row with
  | Except.ok o => o
  | Except.error _ => none

/-- One iteration of `generate_pages` seen from the outside: the pages written
so far, extended by the row's page when the row is written. -/
def generateStep (fetch : Cell → FetchOutcome) (header : List Cell) (template : List Char)
    (acc : List (List Char × List Char)) (row : List Cell) :
    Except Unit (List (List Char × List Char)) :=
  (processRow fetch header template row).map
    (fun res => match res with
      | none => acc
      | some page => acc ++ [page])

/-- `generate_pages` over the data rows (`self.excel_data[self.columns_row:]`):
process each row in order, collecting the written `(path, content)` pages; an
exception in any row body aborts the remaining rows. -/
def generatePages (fetch : Cell → FetchOutcome) (header : List Cell) (template : List Char)
    (dataRows : List (List Cell)) : Except Unit (List (List Char × List Char)) :=
  dataRows.foldlM (generateStep fetch header template) []

/-- A template described structurally, for stating what the substitution loop
achieves: a literal piece of text or the token of header column `i`. -/
inductive Tmpl where
| lit (l : List Char)
| tok (i : Nat)
deriving DecidableEq

/-- The string value of a cell (empty for non-strings); only used on rows whose
cells are all strings. -/
def strVal : Cell → List Char
| Cell.str s => s
| _ => []

/-- Flatten a structural template to its text, tokens unexpanded. -/
def tmplFlatten (header : List Cell) : List Tmpl → List Char
| [] => []
| Tmpl.lit l :: rest => l ++ tmplFlatten header rest
| Tmpl.tok i :: rest => token (pyStr (header.getD i Cell.null)) ++ tmplFlatten header rest

/-- Flatten a structural template with every token replaced by the row's cell
value. -/
def tmplSubst (row : List Cell) : List Tmpl → List Char
| [] => []
| Tmpl.lit l :: rest => l ++ tmplSubst row rest
| Tmpl.tok i :: rest => strVal (row.getD i Cell.null) ++ tmplSubst row rest

/-- Flatten a structural template with tokens of columns `< k` replaced and
later tokens unexpanded: the loop invariant of the substitution loop. -/
def tmplPartial (header row : List Cell) (k : Nat) : List Tmpl → List Char
| [] => []
| Tmpl.lit l :: rest => l ++ tmplPartial header row k rest
| Tmpl.tok i :: rest =>
  (if i < k then strVal (row.getD i Cell.null) else token (pyStr (header.getD i Cell.null)))
    ++ tmplPartial header row k rest

/-- A data cell fit for clean substitution: a string value free of `'['`. -/
def cellOkStr (c : Cell) : Bool :=
  match c with
  | Cell.str s => decide ('[' ∉ s)
  | _ => false

/-- A header cell whose stringified name is free of both brackets. -/
def nameOk (c : Cell) : Bool := decide ('[' ∉ pyStr c) && decide (']' ∉ pyStr c)

/-- A structural-template segment fit for a header of `n` columns: literals
free of `'['`, token indices in range. -/
def segOk (n : Nat) : Tmpl → Bool
| Tmpl.lit l => decide ('[' ∉ l)
| Tmpl.tok i => decide (i < n)

/-! Concrete data used to evaluate the pipeline at specific inputs. -/

/-- A workbook with two rows and three columns of numbered cells. -/
def wbEx : Workbook := ⟨2, 3, fun r c => Cell.num (Int.ofNat (10 * r + c))⟩

/-- An image probe that decodes every fetch as a 2×3 image. -/
def fetchOk : Cell → FetchOutcome := fun _ => FetchOutcome.image 2 3

/-- An image probe for which the url `"bad"` fetches bytes that fail to decode,
`"ok"` decodes as a 2×3 image, and every other url fails to fetch. -/
def fetchC3 : Cell → FetchOutcome := fun c =>
  if c = Cell.str ("bad".data) then FetchOutcome.badImage
  else if c = Cell.str ("ok".data) then FetchOutcome.image 2 3
  else FetchOutcome.fetchFail

/-- The profile header row, as cells. -/
def hdrC1 : List Cell :=
  [Cell.str ("url".data), Cell.str ("title".data), Cell.str ("description".data),
   Cell.str ("image url".data), Cell.str ("site name".data)]

/-- A data row whose title and description columns hold different text. -/
def rowC1 : List Cell :=
  [Cell.str ("u".data), Cell.str ("My Great Page".data), Cell.str ("Other Thing".data),
   Cell.str ("i.png".data), Cell.str ("s".data)]

/-- A two-column header. -/
def hdrC2 : List Cell := [Cell.str ("a".data), Cell.str ("b".data)]

/-- A row whose two cells hold the same string value. -/
def rowC2 : List Cell := [Cell.str ("x".data), Cell.str ("x".data)]

/-- A header holding the slug-source and image-url columns. -/
def hdrC3 : List Cell := [Cell.str descriptionName, Cell.str imageUrlName]

/-- A row whose image url fetches undecodable bytes under `fetchC3`. -/
def rowBad : List Cell := [Cell.str ("Page One".data), Cell.str ("bad".data)]

/-- A row whose image url decodes fine under `fetchC3`. -/
def rowOk : List Cell := [Cell.str ("Page Two".data), Cell.str ("ok".data)]

/-- A sheet whose header holds the same image-column name twice. -/
def sheetC5 : List (List Cell) :=
  [[Cell.str ("image".data), Cell.str ("image".data)],
   [Cell.str ("a".data), Cell.str ("b".data)]]

/-- A header holding the same image-column name twice. -/
def hdrC6 : List Cell := [Cell.str ("image x".data), Cell.str ("image x".data)]

/-- A data row for `hdrC6`. -/
def rowC6 : List Cell := [Cell.str ("a".data), Cell.str ("c".data)]

/-- A header holding the same image-column name twice. -/
def hdrC10 : List Cell := [Cell.str ("image url".data), Cell.str ("image url".data)]

/-- A data row of empty image cells for `hdrC10`. -/
def rowC10 : List Cell := [Cell.null, Cell.null]

/-! ### Helper lemmas about lists -/

theorem getD_set_self {α : Type} (l : List α) (i : Nat) (v d : α) (h : i < l.length) :
    (l.set i v).getD i d = v := by
  simp [List.getD, List.getElem?_set, h]

theorem getD_set_ne {α : Type} (l : List α) (i j : Nat) (v d : α) (h : i ≠ j) :
    (l.set i v).getD j d = l.getD j d := by
  simp [List.getD, List.getElem?_set, h]

theorem getD_mem {α : Type} (l : List α) (n : Nat) (d : α) (h : n < l.length) :
    l.getD n d ∈ l := by
  rw [List.getD_eq_getElem l d h]
  exact List.getElem_mem h

theorem getD_indexOf {α : Type} [DecidableEq α] (l : List α) (a : α) (d : α) (h : a ∈ l) :
    l.getD (List.indexOf a l) d = a := by
  rw [List.getD_eq_getElem l d (List.indexOf_lt_length.mpr h)]
  exact List.getElem_indexOf (List.indexOf_lt_length.mpr h)

theorem nodup_indexOf_getD {α : Type} [DecidableEq α] (l : List α) (k : Nat) (d : α)
    (hnd : l.Nodup) (hk : k < l.length) : List.indexOf (l.getD k d) l = k := by
  rw [List.getD_eq_getElem l d hk]
  exact List.indexOf_getElem hnd k hk

/-! ### Helper lemmas about `isPrefixOf`, `isSubstring`, `replaceList` -/

theorem isPrefixOf_append_self (l r : List Char) : l.isPrefixOf (l ++ r) = true := by
  induction l with
  | nil => simp [List.isPrefixOf]
  | cons c cs ih => simp [List.isPrefixOf, ih]

theorem mem_of_isPrefixOf {p s : List Char} (h : p.isPrefixOf s = true) :
    ∀ a ∈ p, a ∈ s := by
  induction p generalizing s with
  | nil => simp
  | cons c cs ih =>
    cases s with
    | nil => simp [List.isPrefixOf] at h
    | cons b bs =>
      simp only [List.isPrefixOf, Bool.and_eq_true, beq_iff_eq] at h
      intro a ha
      rcases List.mem_cons.mp ha with rfl | ha
      · exact List.mem_cons.mpr (Or.inl h.1)
      · exact List.mem_cons.mpr (Or.inr (ih h.2 a ha))

theorem mem_of_isSubstring {p s : List Char} (h : isSubstring p s = true) :
    ∀ a ∈ p, a ∈ s := by
  induction s with
  | nil =>
    cases p with
    | nil => simp
    | cons c cs => simp [isSubstring, List.isEmpty] at h
  | cons b bs ih =>
    simp only [isSubstring, Bool.or_eq_true] at h
    rcases h with h | h
    · exact mem_of_isPrefixOf h
    · intro a ha
      exact List.mem_cons.mpr (Or.inr (ih h a ha))

theorem isSubstring_self_append (p r : List Char) : isSubstring p (p ++ r) = true := by
  cases p with
  | nil =>
    cases r with
    | nil => simp [isSubstring, List.isEmpty]
    | cons b bs => simp [isSubstring, List.isPrefixOf]
  | cons c cs =>
    simp only [List.cons_append, isSubstring, Bool.or_eq_true]
    exact Or.inl (isPrefixOf_append_self (c :: cs) r)

theorem isSubstring_append_left {p s : List Char} (l : List Char)
    (h : isSubstring p s = true) : isSubstring p (l ++ s) = true := by
  induction l with
  | nil => simpa using h
  | cons c cs ih => simp only [List.cons_append, isSubstring, Bool.or_eq_true]; exact Or.inr ih

theorem isSubstring_false_of_not_mem {p s : List Char} {a : Char}
    (hp : a ∈ p) (hs : a ∉ s) : isSubstring p s = false := by
  cases h : isSubstring p s with
  | false => rfl
  | true => exact absurd (mem_of_isSubstring h a hp) hs

theorem replaceListAux_congr (pat rep : List Char) :
    ∀ f1 f2 s, s.length ≤ f1 → s.length ≤ f2 →
      replaceListAux pat rep f1 s = replaceListAux pat rep f2 s := by
  intro f1
  induction f1 with
  | zero =>
    intro f2 s h1 _h2
    have hs : s = [] := List.length_eq_zero.mp (Nat.le_zero.mp h1)
    subst hs
    cases f2 <;> rfl
  | succ f ih =>
    intro f2 s h1 h2
    cases s with
    | nil => cases f2 <;> rfl
    | cons c rest =>
      cases f2 with
      | zero => simp at h2
      | succ g =>
        by_cases hc : pat ≠ [] ∧ pat.isPrefixOf (c :: rest)
        · simp only [replaceListAux, if_pos hc]
          congr 1
          have hpat : 0 < pat.length := List.length_pos.mpr hc.1
          apply ih
          · simp only [List.length_drop, List.length_cons]
            simp only [List.length_cons] at h1
            omega
          · simp only [List.length_drop, List.length_cons]
            simp only [List.length_cons] at h2
            omega
        · simp only [replaceListAux, if_neg hc]
          congr 1
          apply ih
          · simp only [List.length_cons] at h1; omega
          · simp only [List.length_cons] at h2; omega

theorem replaceList_nil (pat rep : List Char) : replaceList pat rep [] = [] := rfl

theorem replaceList_cons_neg {pat : List Char} (rep : List Char) {c : Char} {s : List Char}
    (h : pat.isPrefixOf (c :: s) = false) :
    replaceList pat rep (c :: s) = c :: replaceList pat rep s := by
  show replaceListAux pat rep (s.length + 1) (c :: s) = c :: replaceListAux pat rep s.length s
  rw [replaceListAux, if_neg]
  intro hcond
  exact absurd hcond.2 (by simp [h])

theorem replaceList_head_match {pat : List Char} (rep rest : List Char) (h : pat ≠ []) :
    replaceList pat rep (pat ++ rest) = rep ++ replaceList pat rep rest := by
  cases pat with
  | nil => exact absurd rfl h
  | cons p ps =>
    have hpre : (p :: ps).isPrefixOf (p :: (ps ++ rest)) = true := by
      have := isPrefixOf_append_self (p :: ps) rest
      simpa using this
    have hdrop : (p :: (ps ++ rest)).drop (p :: ps).length = rest := by
      have := List.drop_left (p :: ps) rest
      simpa using this
    show replaceListAux (p :: ps) rep ((ps ++ rest).length + 1) (p :: (ps ++ rest)) = _
    rw [replaceListAux, if_pos ⟨h, by simpa using hpre⟩, hdrop]
    congr 1
    apply replaceListAux_congr
    · simp only [List.length_append]
      omega
    · exact Nat.le_refl _

theorem replaceList_bracket_skip (p rep : List Char) {l : List Char} (rest : List Char)
    (hl : '[' ∉ l) :
    replaceList ('[' :: p) rep (l ++ rest) = l ++ replaceList ('[' :: p) rep rest := by
  induction l with
  | nil => simp
  | cons c cs ih =>
    have hc : c ≠ '[' := fun hc => hl (by simp [hc])
    have hpre : ('[' :: p).isPrefixOf (c :: (cs ++ rest)) = false := by
      simp only [List.isPrefixOf, Bool.and_eq_false_iff]
      left
      simpa using fun hx => hc hx.symm
    rw [List.cons_append, replaceList_cons_neg rep hpre, ih (fun hx => hl (by simp [hx]))]
    simp

theorem isPrefixOf_name_close_false :
    ∀ (n m rest : List Char), n ≠ m → ']' ∉ n → ']' ∉ m →
      ((n ++ [']']).isPrefixOf (m ++ ']' :: rest)) = false := by
  intro n
  induction n with
  | nil =>
    intro m rest hne _hn hm
    cases m with
    | nil => exact absurd rfl hne
    | cons b bs =>
      have hb : ']' ≠ b := fun hb => hm (by simp [hb.symm])
      simp only [List.nil_append, List.cons_append, List.isPrefixOf, Bool.and_eq_false_iff]
      left
      simpa using fun hx => hb hx
  | cons a as ih =>
    intro m rest hne hn hm
    cases m with
    | nil =>
      have ha : a ≠ ']' := fun ha => hn (by simp [ha])
      simp only [List.cons_append, List.nil_append, List.isPrefixOf, Bool.and_eq_false_iff]
      left
      simpa using fun hx => ha hx
    | cons b bs =>
      simp only [List.cons_append, List.isPrefixOf, Bool.and_eq_false_iff]
      by_cases hab : a = b
      · right
        subst hab
        have hne' : as ≠ bs := fun hx => hne (by rw [hx])
        exact ih bs rest hne' (fun hx => hn (by simp [hx])) (fun hx => hm (by simp [hx]))
      · left
        simpa using fun hx => hab hx

theorem replaceList_token_skip (n m rep rest : List Char) (hne : n ≠ m)
    (hn : ']' ∉ n) (hm1 : '[' ∉ m) (hm2 : ']' ∉ m) :
    replaceList (token n) rep (token m ++ rest) = token m ++ replaceList (token n) rep rest := by
  have hsplit : token m ++ rest = '[' :: (m ++ (']' :: rest)) := by
    simp [token]
  have hhead : (token n).isPrefixOf ('[' :: (m ++ (']' :: rest))) = false := by
    have h2 := isPrefixOf_name_close_false n m rest hne hn hm2
    simp only [token, List.isPrefixOf, Bool.and_eq_false_iff]
    right
    exact h2
  have hclose : (token n).isPrefixOf (']' :: rest) = false := by
    simp only [token, List.isPrefixOf, Bool.and_eq_false_iff]
    left
    decide
  have hskip : replaceList (token n) rep (m ++ (']' :: rest)) =
      m ++ replaceList (token n) rep (']' :: rest) :=
    replaceList_bracket_skip (n ++ [']']) rep (']' :: rest) hm1
  rw [hsplit, replaceList_cons_neg rep hhead, hskip, replaceList_cons_neg rep hclose]
  simp [token]

/-! ### Claim C4: column validation -/

/-- C4: `__validate_excel_columns__` succeeds exactly when every required
column name is a member of the header (membership, not position); when names
are missing it fails on the first missing name in required-list order, raising
an error carrying that name together with the full observed header. -/
theorem c4_validate_membership (names : List (List Char)) (header : List Cell) :
    (validateExcelColumns names header = Except.ok () ↔ ∀ n ∈ names, Cell.str n ∈ header)
    ∧ (∀ pre n post, names = pre ++ n :: post → (∀ p ∈ pre, Cell.str p ∈ header) →
        Cell.str n ∉ header →
        validateExcelColumns names header = Except.error (n, header)) := by
  constructor
  · induction names with
    | nil => simp [validateExcelColumns]
    | cons m rest ih =>
      by_cases hm : Cell.str m ∈ header
      · simpa [validateExcelColumns, hm] using ih
      · simp [validateExcelColumns, hm]
  · intro pre n post hsplit hpre hn
    subst hsplit
    induction pre with
    | nil => simp [validateExcelColumns, hn]
    | cons p ps ih =>
      have hp : Cell.str p ∈ header := hpre p (by simp)
      simp only [List.cons_append, validateExcelColumns, if_pos hp]
      exact ih (fun q hq => hpre q (by simp [hq]))

/-- Witness for C4 at concrete inputs: a header containing all required names
in a scrambled order validates, and a header missing `"image url"` fails with
exactly that name and the observed header. -/
theorem c4_validate_witness :
    validateExcelColumns columnsNames
        [Cell.str ("site name".data), Cell.str ("description".data), Cell.str ("url".data),
         Cell.str ("image url".data), Cell.str ("title".data)] = Except.ok ()
    ∧ validateExcelColumns columnsNames
        [Cell.str ("url".data), Cell.str ("title".data), Cell.str ("description".data)] =
      Except.error ("image url".data,
        [Cell.str ("url".data), Cell.str ("title".data), Cell.str ("description".data)]) := by
  constructor
  · exact (c4_validate_membership columnsNames _).1.mpr (by decide)
  · exact (c4_validate_membership columnsNames _).2
      ["url".data, "title".data, "description".data] ("image url".data) ["site name".data]
      (by decide) (by decide) (by decide)

/-! ### Claim C7: null cells make substitution fail loudly -/

theorem foldlM_renderStep_error (header row : List Cell) :
    ∀ (l : List Cell) (content : List Char), Cell.null ∈ l →
      List.foldlM (renderStep header row) content l = Except.error () := by
  intro l
  induction l with
  | nil => intro content h; simp at h
  | cons c rest ih =>
    intro content h
    rw [List.foldlM_cons]
    cases c with
    | null => rfl
    | num n => rfl
    | str s =>
      have hmem : Cell.null ∈ rest := by
        rcases List.mem_cons.mp h with h1 | h1
        · exact absurd h1 (by simp)
        · exact h1
      cases renderStep header row content (Cell.str s) with
      | error e => cases e; rfl
      | ok content' => exact ih content' hmem

/-- C7: substituting a row holding a null cell into the template raises
(`content.replace` rejects a non-string argument), rather than silently
emitting `"None"`: the render loop returns an error and produces no output. -/
theorem c7_null_cell_raises (header row : List Cell) (template : List Char)
    (h : Cell.null ∈ row) : renderRow header row template = Except.error () :=
  foldlM_renderStep_error header row row template h

/-- Witness for C7 at a concrete row holding a null cell. -/
theorem c7_null_cell_witness :
    renderRow hdrC2 [Cell.str ("x".data), Cell.null] ("[a][b]".data) = Except.error () :=
  c7_null_cell_raises hdrC2 [Cell.str ("x".data), Cell.null] ("[a][b]".data) (by decide)

/-! ### Claim C8: the loader -/

/-- C8: `__load_excel_data__` raises its not-found error exactly when the
excel path does not exist; otherwise it loads the full used grid: one row per
`1..max_row`, each row covering `1..max_column` (so every row, the header row
included, has the same column count), missing cells appearing as null cell
values rather than being omitted. -/
theorem c8_loader (wb : Workbook) :
    (∀ ex : Bool, loadExcelData ex wb = Except.error () ↔ ex = false)
    ∧ loadExcelData true wb = Except.ok (sheetOf wb)
    ∧ (sheetOf wb).length = wb.maxRow
    ∧ (∀ row ∈ sheetOf wb, row.length = wb.maxCol)
    ∧ (∀ r c, r < wb.maxRow → c < wb.maxCol →
        ((sheetOf wb).getD r []).getD c Cell.null = wb.cellValue (r + 1) (c + 1)) := by
  refine ⟨?_, by simp [loadExcelData], by simp [sheetOf], ?_, ?_⟩
  · intro ex; cases ex <;> simp [loadExcelData]
  · intro row hrow
    simp only [sheetOf, List.mem_map] at hrow
    obtain ⟨r, _hr, hrow⟩ := hrow
    simp [← hrow]
  · intro r c hr hc
    have hr' : r < (sheetOf wb).length := by simpa [sheetOf] using hr
    rw [List.getD_eq_getElem _ _ hr']
    simp only [sheetOf, List.getElem_map, List.getElem_range]
    have hc' : c < ((List.range wb.maxCol).map fun c => wb.cellValue (r + 1) (c + 1)).length := by
      simpa using hc
    rw [List.getD_eq_getElem _ _ hc']
    simp

/-- Witness for C8 at a concrete workbook: a missing path errors, and the
loaded grid has the advertised shape and cells. -/
theorem c8_loader_witness :
    loadExcelData false wbEx = Except.error ()
    ∧ ((sheetOf wbEx).getD 1 []).getD 2 Cell.null = Cell.num 23
    ∧ (sheetOf wbEx).length = 2 := by
  refine ⟨((c8_loader wbEx).1 false).mpr rfl, ?_, (c8_loader wbEx).2.2.1⟩
  rw [(c8_loader wbEx).2.2.2.2 1 2 (by decide) (by decide)]
  decide

/-! ### Claim C9: path rewriting is not idempotent -/

/-- C9: the path-rewrite stage is not idempotent: on this loaded sheet (one
image-url column, one data row) running `__replace_images_paths__` twice
prepends the configured prefix a second time, so the result differs from a
single run. -/
theorem c9_rewrite_not_idempotent :
    replaceImagesPaths ("d".data) ("f".data)
        (replaceImagesPaths ("d".data) ("f".data)
          [[Cell.str ("image url".data)], [Cell.str ("a".data)]])
      ≠ replaceImagesPaths ("d".data) ("f".data)
          [[Cell.str ("image url".data)], [Cell.str ("a".data)]] := by
  decide

/-! ### Claim C1: slug derivation in slugged mode -/

/-- C1 counterexample: a row whose title column is `"My Great Page"` and whose
description column is `"Other Thing"` is written to folder `"other-thing"`,
not to `"my-great-page"` (the lowercased-and-hyphenated title), so the folder
name is not derived from the title column. -/
theorem c1_counterexample :
    generatePages fetchOk hdrC1 ("t".data) [rowC1] =
      Except.ok [("other-thing/index.html".data, "t".data)]
    ∧ slugify ("My Great Page".data) = "my-great-page".data
    ∧ ("other-thing/index.html".data : List Char) ≠ "my-great-page".data ++ indexHtmlSuffix := by
  refine ⟨by decide, by decide, by decide⟩

/-- C1 (amended): in slugged mode the output folder name is derived from the
row's DESCRIPTION column (the source looks up `"description"`, despite calling
the variable `page_title`), by lowercasing and replacing every space with a
hyphen; the page is written as `index.html` inside that folder (the written
path is the slug followed by `/index.html`); a row whose description cell is
empty or null is skipped without creating a folder. -/
theorem c1_slug_from_description (header row : List Cell)
    (h1 : List.indexOf (Cell.str descriptionName) header < header.length)
    (h2 : List.indexOf (Cell.str descriptionName) header < row.length) :
    (∀ s, row.getD (List.indexOf (Cell.str descriptionName) header) Cell.null = Cell.str s →
      s ≠ [] → slugOf header row = Except.ok (some (slugify s)))
    ∧ (row.getD (List.indexOf (Cell.str descriptionName) header) Cell.null = Cell.null →
        slugOf header row = Except.ok none)
    ∧ (row.getD (List.indexOf (Cell.str descriptionName) header) Cell.null = Cell.str [] →
        slugOf header row = Except.ok none)
    ∧ (∀ fetch template p c, processRow fetch header template row = Except.ok (some (p, c)) →
        ∃ sl, slugOf header row = Except.ok (some sl) ∧ p = sl ++ indexHtmlSuffix) := by
  refine ⟨?_, ?_, ?_, ?_⟩
  · intro s hs hne
    unfold slugOf
    rw [dif_pos h1, dif_pos h2, hs]
    simp [hne]
  · intro hs
    unfold slugOf
    rw [dif_pos h1, dif_pos h2, hs]
  · intro hs
    unfold slugOf
    rw [dif_pos h1, dif_pos h2, hs]
    simp
  · intro fetch template p c hp
    unfold processRow at hp
    split at hp
    · exact absurd hp (by simp)
    · exact absurd hp (by simp)
    · rename_i sl heq
      refine ⟨sl, heq, ?_⟩
      split at hp
      · exact absurd hp (by simp)
      · split at hp
        · split at hp
          · split at hp
            · exact absurd hp (by simp)
            · split at hp
              · exact absurd hp (by simp)
              · simp only [Except.ok.injEq, Option.some.injEq, Prod.mk.injEq] at hp
                exact hp.1.symm
          · exact absurd hp (by simp)
        · exact absurd hp (by simp)

/-- Witness for C1 at a concrete header and rows: a nonempty description slugs,
a null description skips. -/
theorem c1_slug_witness :
    slugOf hdrC3 [Cell.str ("My Great Page".data), Cell.str ("u".data)] =
      Except.ok (some ("my-great-page".data))
    ∧ slugOf hdrC3 [Cell.null, Cell.str ("u".data)] = Except.ok none := by
  constructor
  · exact ((c1_slug_from_description hdrC3 _ (by decide) (by decide)).1
      ("My Great Page".data) (by decide) (by decide)).trans (by decide)
  · exact (c1_slug_from_description hdrC3 _ (by decide) (by decide)).2.1 (by decide)

/-! ### Claim C3: image fetch and decode failures -/

theorem foldlM_generateStep_ok (fetch : Cell → FetchOutcome) (header : List Cell)
    (template : List Char) :
    ∀ (rows : List (List Cell)) (acc : List (List Char × List Char)),
      (∀ r ∈ rows, processRow fetch header template r ≠ Except.error ()) →
      List.foldlM (generateStep fetch header template) acc rows =
        Except.ok (acc ++ rows.filterMap (pageOf fetch header template)) := by
  intro rows
  induction rows with
  | nil =>
    intro acc _h
    simp only [List.foldlM_nil, List.filterMap_nil, List.append_nil]
    rfl
  | cons r rs ih =>
    intro acc h
    rw [List.foldlM_cons]
    have hr := h r (by simp)
    cases hpr : processRow fetch header template r with
    | error e => cases e; exact absurd hpr hr
    | ok o =>
      cases o with
      | none =>
        have hstep : generateStep fetch header template acc r = Except.ok acc := by
          simp [generateStep, hpr, Except.map]
        rw [hstep]
        have hpage : pageOf fetch header template r = none := by
          simp [pageOf, hpr]
        rw [show ((Except.ok acc : Except Unit (List (List Char × List Char))) >>=
            fun b => List.foldlM (generateStep fetch header template) b rs) =
            List.foldlM (generateStep fetch header template) acc rs from rfl]
        rw [ih acc (fun q hq => h q (by simp [hq]))]
        simp [List.filterMap_cons, hpage]
      | some page =>
        have hstep : generateStep fetch header template acc r = Except.ok (acc ++ [page]) := by
          simp [generateStep, hpr, Except.map]
        rw [hstep]
        have hpage : pageOf fetch header template r = some page := by
          simp [pageOf, hpr]
        rw [show ((Except.ok (acc ++ [page]) : Except Unit (List (List Char × List Char))) >>=
            fun b => List.foldlM (generateStep fetch header template) b rs) =
            List.foldlM (generateStep fetch header template) (acc ++ [page]) rs from rfl]
        rw [ih (acc ++ [page]) (fun q hq => h q (by simp [hq]))]
        simp [List.filterMap_cons, hpage]

theorem foldlM_generateStep_error (fetch : Cell → FetchOutcome) (header : List Cell)
    (template : List Char) (r : List Cell) (post : List (List Cell)) :
    ∀ (pre : List (List Cell)) (acc : List (List Char × List Char)),
      (∀ q ∈ pre, processRow fetch header template q ≠ Except.error ()) →
      processRow fetch header template r = Except.error () →
      List.foldlM (generateStep fetch header template) acc (pre ++ r :: post) =
        Except.error () := by
  intro pre
  induction pre with
  | nil =>
    intro acc _h hr
    rw [List.nil_append, List.foldlM_cons]
    have hstep : generateStep fetch header template acc r = Except.error () := by
      simp [generateStep, hr, Except.map]
    rw [hstep]
    rfl
  | cons q qs ih =>
    intro acc h hr
    rw [List.cons_append, List.foldlM_cons]
    have hq := h q (by simp)
    cases hpq : processRow fetch header template q with
    | error e => cases e; exact absurd hpq hq
    | ok o =>
      cases o with
      | none =>
        have hstep : generateStep fetch header template acc q = Except.ok acc := by
          simp [generateStep, hpq, Except.map]
        rw [hstep]
        exact ih acc (fun x hx => h x (by simp [hx])) hr
      | some page =>
        have hstep : generateStep fetch header template acc q = Except.ok (acc ++ [page]) := by
          simp [generateStep, hpq, Except.map]
        rw [hstep]
        exact ih (acc ++ [page]) (fun x hx => h x (by simp [hx])) hr

/-- C3 (amended): per-row image handling in `generate_pages`.  (a) When no row
raises, the run writes exactly the pages of the non-skipped rows, in order.
(b) A row whose image fetch fails (the caught `requests` failure, signalled by
the `(0, 0)` sentinel) is skipped entirely — no file is written for it — and
by (a) the run continues with the remaining rows.  (c) But a row whose fetched
bytes fail to DECODE raises from `Image.open`, outside the `try`, so (d) the
whole run aborts: rows after it are never processed.  The claim's "decode
failure skips the row and the run continues" does not hold; only fetch
failures are recovered. -/
theorem c3_image_failures (fetch : Cell → FetchOutcome) (header : List Cell)
    (template : List Char) :
    (∀ rows, (∀ r ∈ rows, processRow fetch header template r ≠ Except.error ()) →
        generatePages fetch header template rows =
          Except.ok (rows.filterMap (pageOf fetch header template)))
    ∧ (∀ r, processRow fetch header template r ≠ Except.error () →
        fetch (urlCellOf header r) = FetchOutcome.fetchFail →
        processRow fetch header template r = Except.ok none)
    ∧ (∀ r sl content, slugOf header r = Except.ok (some sl) →
        renderRow header r template = Except.ok content →
        List.indexOf (Cell.str imageUrlName) header < header.length →
        List.indexOf (Cell.str imageUrlName) header < r.length →
        fetch (urlCellOf header r) = FetchOutcome.badImage →
        processRow fetch header template r = Except.error ())
    ∧ (∀ pre r post, (∀ q ∈ pre, processRow fetch header template q ≠ Except.error ()) →
        processRow fetch header template r = Except.error () →
        generatePages fetch header template (pre ++ r :: post) = Except.error ()) := by
  refine ⟨?_, ?_, ?_, ?_⟩
  · intro rows h
    unfold generatePages
    rw [foldlM_generateStep_ok fetch header template rows [] h]
    simp
  · intro r h hf
    cases hslug : slugOf header r with
    | error e =>
      cases e
      exact absurd (by simp only [processRow, hslug]) h
    | ok o =>
      cases o with
      | none => simp only [processRow, hslug]
      | some sl =>
        cases hrend : renderRow header r template with
        | error e =>
          cases e
          exact absurd (by simp only [processRow, hslug, hrend]) h
        | ok content =>
          by_cases hu1 : List.indexOf (Cell.str imageUrlName) header < header.length
          · by_cases hu2 : List.indexOf (Cell.str imageUrlName) header < r.length
            · simp [processRow, hslug, hrend, getImageSize, hf, hu1, hu2]
            · exact absurd (by simp [processRow, hslug, hrend, hu1, hu2]) h
          · exact absurd (by simp [processRow, hslug, hrend, hu1]) h
  · intro r sl content hslug hrend hu1 hu2 hbad
    simp [processRow, hslug, hrend, getImageSize, hbad, hu1, hu2]
  · intro pre r post hpre hr
    exact foldlM_generateStep_error fetch header template r post pre [] hpre hr

/-- C3 counterexample: with two data rows, the first fetching bytes that fail
to decode, the whole run aborts with an error — the second row, which on its
own renders to a page, is dropped too, so the run does not continue past a
decode failure. -/
theorem c3_counterexample :
    generatePages fetchC3 hdrC3 ("x".data) [rowBad, rowOk] = Except.error ()
    ∧ generatePages fetchC3 hdrC3 ("x".data) [rowOk] =
        Except.ok [("page-two/index.html".data, "x".data)] :=
  ⟨by decide, by decide⟩

/-- Witness for C3 at concrete inputs: a fetch-failing row is skipped with the
run intact, and a decode-failing row aborts the run. -/
theorem c3_image_witness :
    processRow fetchC3 hdrC3 ("x".data) [Cell.str ("Page Three".data), Cell.str ("nope".data)] =
      Except.ok none
    ∧ generatePages fetchC3 hdrC3 ("x".data) ([] ++ rowBad :: [rowOk]) = Except.error () :=
  ⟨(c3_image_failures fetchC3 hdrC3 ("x".data)).2.1 _ (by decide) (by decide),
   (c3_image_failures fetchC3 hdrC3 ("x".data)).2.2.2 [] rowBad [rowOk]
     (by simp) (by decide)⟩

/-! ### Claims C5, C6, C10: the path-rewrite stage -/

theorem foldl_collect_eq (p : Cell → Bool) (g : Cell → Nat) :
    ∀ (l : List Cell) (acc : List Nat),
      l.foldl (fun acc c => if p c then acc ++ [g c] else acc) acc =
        acc ++ (l.filter p).map g := by
  intro l
  induction l with
  | nil => intro acc; simp
  | cons c cs ih =>
    intro acc
    by_cases hc : p c = true
    · rw [List.foldl_cons, if_pos hc, ih]
      simp [List.filter_cons, hc]
    · rw [List.foldl_cons, if_neg hc, ih]
      simp [List.filter_cons, hc]

theorem imageColumnIndexes_eq (header : List Cell) :
    imageColumnIndexes header =
      (header.filter isImageName).map (fun c => List.indexOf c header) := by
  unfold imageColumnIndexes
  rw [foldl_collect_eq]
  simp

theorem imageColumnIndexes_lt (header : List Cell) :
    ∀ j ∈ imageColumnIndexes header, j < header.length := by
  intro j hj
  rw [imageColumnIndexes_eq] at hj
  simp only [List.mem_map, List.mem_filter] at hj
  obtain ⟨c, ⟨hcmem, _⟩, rfl⟩ := hj
  exact List.indexOf_lt_length.mpr hcmem

theorem mem_imageColumnIndexes {header : List Cell} (hnd : header.Nodup) (j : Nat) :
    j ∈ imageColumnIndexes header ↔
      j < header.length ∧ isImageName (header.getD j Cell.null) = true := by
  rw [imageColumnIndexes_eq]
  simp only [List.mem_map, List.mem_filter]
  constructor
  · rintro ⟨c, ⟨hcmem, hcimg⟩, rfl⟩
    refine ⟨List.indexOf_lt_length.mpr hcmem, ?_⟩
    rw [getD_indexOf header c Cell.null hcmem]
    exact hcimg
  · rintro ⟨hj, himg⟩
    exact ⟨header.getD j Cell.null, ⟨getD_mem header j Cell.null hj, himg⟩,
      nodup_indexOf_getD header j Cell.null hnd hj⟩

theorem nodup_imageColumnIndexes {header : List Cell} (hnd : header.Nodup) :
    (imageColumnIndexes header).Nodup := by
  rw [imageColumnIndexes_eq]
  apply List.Nodup.map_on ?_ (hnd.filter isImageName)
  intro x hx y hy hxy
  have hx' : x ∈ header := (List.mem_filter.mp hx).1
  have hy' : y ∈ header := (List.mem_filter.mp hy).1
  have h1 := getD_indexOf header x Cell.null hx'
  rw [hxy, getD_indexOf header y Cell.null hy'] at h1
  exact h1.symm

theorem rewriteRow_getD (domain imagesFolder : List Char) :
    ∀ (idxs : List Nat) (row : List Cell) (j : Nat), idxs.Nodup →
      (∀ i ∈ idxs, i < row.length) →
      (rewriteRow domain imagesFolder idxs row).getD j Cell.null =
        (if j ∈ idxs
         then Cell.str (newImagePath domain imagesFolder (row.getD j Cell.null))
         else row.getD j Cell.null) := by
  intro idxs
  induction idxs with
  | nil => intro row j _ _; simp [rewriteRow]
  | cons i is ih =>
    intro row j hnd hb
    have hi : i < row.length := hb i (by simp)
    have hnotin : i ∉ is := (List.nodup_cons.mp hnd).1
    have hnd' : is.Nodup := (List.nodup_cons.mp hnd).2
    have hstep : rewriteRow domain imagesFolder (i :: is) row =
        rewriteRow domain imagesFolder is
          (row.set i (Cell.str (newImagePath domain imagesFolder (row.getD i Cell.null)))) := rfl
    rw [hstep, ih _ j hnd'
      (fun x hx => by rw [List.length_set]; exact hb x (by simp [hx]))]
    by_cases hji : j = i
    · subst hji
      rw [if_neg (fun hjs => hnotin hjs),
        getD_set_self row j _ Cell.null hi, if_pos (by simp)]
    · rw [getD_set_ne row i j _ Cell.null (fun hx => hji hx.symm)]
      by_cases hjs : j ∈ is
      · rw [if_pos hjs, if_pos (by simp [hjs])]
      · rw [if_neg hjs, if_neg (by simp [hjs, hji])]

theorem newImagePath_ne (domain imagesFolder : List Char) (c : Cell) :
    Cell.str (newImagePath domain imagesFolder c) ≠ c := by
  cases c with
  | str s =>
    intro h
    have hs : newImagePath domain imagesFolder (Cell.str s) = s := Cell.str.inj h
    have hlen := congrArg List.length hs
    simp only [newImagePath, pyStr, List.length_append, List.length_cons] at hlen
    omega
  | num n => exact fun h => Cell.noConfusion h
  | null => exact fun h => Cell.noConfusion h

/-- C5 (amended): for a sheet whose header row has no duplicate cells, the
path-rewrite stage preserves the sheet's shape, leaves the header row
byte-identical, rewrites (hence modifies) every data-row cell in every column
whose stringified header name contains the case-sensitive substring `"image"`,
and leaves every other cell byte-identical.  (With duplicate header names the
frame property fails: only the first occurrence's index is collected, see the
counterexample.) -/
theorem c5_rewrite_frame (domain imagesFolder : List Char) (sheet : List (List Cell))
    (hnd : (saveHeader sheet).Nodup)
    (hrect : ∀ row ∈ sheet, row.length = (saveHeader sheet).length) :
    (replaceImagesPaths domain imagesFolder sheet).length = sheet.length
    ∧ (sheet ≠ [] →
        (replaceImagesPaths domain imagesFolder sheet).getD 0 [] = sheet.getD 0 [])
    ∧ (∀ r j, columnsRow ≤ r → r < sheet.length → j < (saveHeader sheet).length →
        ((replaceImagesPaths domain imagesFolder sheet).getD r []).getD j Cell.null =
          (if isImageName ((saveHeader sheet).getD j Cell.null) = true
           then Cell.str (newImagePath domain imagesFolder ((sheet.getD r []).getD j Cell.null))
           else (sheet.getD r []).getD j Cell.null))
    ∧ (∀ r j, columnsRow ≤ r → r < sheet.length → j < (saveHeader sheet).length →
        isImageName ((saveHeader sheet).getD j Cell.null) = true →
        ((replaceImagesPaths domain imagesFolder sheet).getD r []).getD j Cell.null ≠
          (sheet.getD r []).getD j Cell.null) := by
  have hmain : ∀ r j, columnsRow ≤ r → r < sheet.length → j < (saveHeader sheet).length →
      ((replaceImagesPaths domain imagesFolder sheet).getD r []).getD j Cell.null =
        (if isImageName ((saveHeader sheet).getD j Cell.null) = true
         then Cell.str (newImagePath domain imagesFolder ((sheet.getD r []).getD j Cell.null))
         else (sheet.getD r []).getD j Cell.null) := by
    intro r j hr1 hr2 hj
    cases sheet with
    | nil => simp at hr2
    | cons s0 rest =>
      have hhd : saveHeader (s0 :: rest) = s0 := rfl
      cases r with
      | zero => simp [columnsRow] at hr1
      | succ r' =>
        have hr' : r' < rest.length := by
          simp only [List.length_cons] at hr2; omega
        have hrow : (replaceImagesPaths domain imagesFolder (s0 :: rest)).getD (r' + 1) [] =
            rewriteRow domain imagesFolder (imageColumnIndexes (saveHeader (s0 :: rest)))
              (rest.getD r' []) := by
          show ((s0 :: rest).take columnsRow ++ _).getD (r' + 1) [] = _
          simp only [columnsRow, List.take_succ_cons, List.take_zero, List.drop_succ_cons,
            List.drop_zero, List.singleton_append, List.getD_cons_succ]
          rw [List.getD_eq_getElem _ _ (by simpa using hr'), List.getElem_map,
            List.getD_eq_getElem _ _ hr']
        rw [hrow, List.getD_cons_succ]
        have hrowmem : rest.getD r' [] ∈ s0 :: rest :=
          List.mem_cons.mpr (Or.inr (getD_mem rest r' [] hr'))
        have hrlen : (rest.getD r' []).length = (saveHeader (s0 :: rest)).length :=
          hrect _ hrowmem
        rw [rewriteRow_getD domain imagesFolder _ _ j (nodup_imageColumnIndexes hnd)
          (fun i hi => by rw [hrlen]; exact imageColumnIndexes_lt _ i hi)]
        by_cases himg : isImageName ((saveHeader (s0 :: rest)).getD j Cell.null) = true
        · rw [if_pos ((mem_imageColumnIndexes hnd j).mpr ⟨hj, himg⟩), if_pos himg]
        · rw [if_neg (fun hjs => himg ((mem_imageColumnIndexes hnd j).mp hjs).2),
            if_neg himg]
  refine ⟨?_, ?_, hmain, ?_⟩
  · simp only [replaceImagesPaths, List.length_append, List.length_take, List.length_map,
      List.length_drop, columnsRow]
    omega
  · intro hne
    cases sheet with
    | nil => exact absurd rfl hne
    | cons s0 rest =>
      show ((s0 :: rest).take columnsRow ++ _).getD 0 [] = s0
      simp [columnsRow]
  · intro r j hr1 hr2 hj himg
    rw [hmain r j hr1 hr2 hj, if_pos himg]
    exact newImagePath_ne domain imagesFolder _

/-- C5 counterexample: with a header holding the image-column name `"image"`
twice, the second image column's data cell is left byte-identical (the index
collection loop resolves both occurrences to the first index), although its
header name contains `"image"` — so not every image-column cell is modified. -/
theorem c5_counterexample :
    isImageName ((saveHeader sheetC5).getD 1 Cell.null) = true
    ∧ ((replaceImagesPaths ("d".data) ("f".data) sheetC5).getD 1 []).getD 1 Cell.null =
        (sheetC5.getD 1 []).getD 1 Cell.null :=
  ⟨by decide, by decide⟩

/-- Witness for C5 at a concrete duplicate-free sheet: the data row's image
column is rewritten, its non-image column is byte-identical. -/
theorem c5_rewrite_witness :
    ((replaceImagesPaths ("d".data) ("f".data)
        [hdrC3, [Cell.str ("x".data), Cell.str ("a.png".data)]]).getD 1 []).getD 0 Cell.null =
      Cell.str ("x".data)
    ∧ ((replaceImagesPaths ("d".data) ("f".data)
        [hdrC3, [Cell.str ("x".data), Cell.str ("a.png".data)]]).getD 1 []).getD 1 Cell.null =
      Cell.str ("d/f/a.png".data) := by
  have h := (c5_rewrite_frame ("d".data) ("f".data)
    [hdrC3, [Cell.str ("x".data), Cell.str ("a.png".data)]] (by decide) (by decide)).2.2.1
  constructor
  · rw [h 1 0 (by decide) (by decide) (by decide)]
    decide
  · rw [h 1 1 (by decide) (by decide) (by decide)]
    decide

/-- C6 (amended): for a header without duplicate cells, whenever column `j` is
an image column the rewrite replaces the string cell value `v` with exactly
`"{domain}/{images_folder}/{v}"` — the configured domain and images-folder
prefix, independent of the data.  (With a duplicated image-column name the
collected index list repeats the first index and that cell is rewritten twice,
double-prefixing it, see the counterexample.) -/
theorem c6_rewrite_value (domain imagesFolder : List Char) (header row : List Cell) (j : Nat)
    (hnd : header.Nodup) (hlen : row.length = header.length) (hj : j < header.length)
    (himg : isImageName (header.getD j Cell.null) = true) (v : List Char)
    (hcell : row.getD j Cell.null = Cell.str v) :
    (rewriteRow domain imagesFolder (imageColumnIndexes header) row).getD j Cell.null =
      Cell.str (domain ++ '/' :: (imagesFolder ++ '/' :: v)) := by
  rw [rewriteRow_getD domain imagesFolder _ row j (nodup_imageColumnIndexes hnd)
    (fun i hi => by rw [hlen]; exact imageColumnIndexes_lt header i hi),
    if_pos ((mem_imageColumnIndexes hnd j).mpr ⟨hj, himg⟩), hcell]
  rfl

/-- C6 counterexample: with the image-column name `"image x"` appearing twice
in the header, the first column's cell `"a"` is rewritten twice and ends as
`"d/f/d/f/a"`, not as the claimed `"{domain}/{images_folder}/{v}"` =
`"d/f/a"`. -/
theorem c6_counterexample :
    isImageName (hdrC6.getD 0 Cell.null) = true
    ∧ rowC6.getD 0 Cell.null = Cell.str ("a".data)
    ∧ (rewriteRow ("d".data) ("f".data) (imageColumnIndexes hdrC6) rowC6).getD 0 Cell.null =
        Cell.str ("d/f/d/f/a".data)
    ∧ (rewriteRow ("d".data) ("f".data) (imageColumnIndexes hdrC6) rowC6).getD 0 Cell.null ≠
        Cell.str ("d/f/a".data) :=
  ⟨by decide, by decide, by decide, by decide⟩

/-- Witness for C6 at a concrete duplicate-free header. -/
theorem c6_rewrite_witness :
    (rewriteRow ("d".data) ("f".data) (imageColumnIndexes hdrC3)
        [Cell.str ("x".data), Cell.str ("a.png".data)]).getD 1 Cell.null =
      Cell.str ("d/f/a.png".data) := by
  rw [c6_rewrite_value ("d".data) ("f".data) hdrC3 _ 1 (by decide) (by decide) (by decide)
    (by decide) ("a.png".data) (by decide)]
  decide

/-- C10 (amended): for a header without duplicate cells, the path rewriter
applies no null guard: a null image-column cell is stringified by the f-string,
so the cell becomes the literal string `"{domain}/{images_folder}/None"` — a
non-null string value that the later token-substitution loop accepts silently
(unlike the null it replaces, which would make it raise). -/
theorem c10_null_image_cell (domain imagesFolder : List Char) (header row : List Cell) (j : Nat)
    (hnd : header.Nodup) (hlen : row.length = header.length) (hj : j < header.length)
    (himg : isImageName (header.getD j Cell.null) = true)
    (hcell : row.getD j Cell.null = Cell.null) :
    (rewriteRow domain imagesFolder (imageColumnIndexes header) row).getD j Cell.null =
      Cell.str (domain ++ '/' :: (imagesFolder ++ '/' :: ("None".data)))
    ∧ (rewriteRow domain imagesFolder (imageColumnIndexes header) row).getD j Cell.null ≠
      Cell.null := by
  have h : (rewriteRow domain imagesFolder (imageColumnIndexes header) row).getD j Cell.null =
      Cell.str (domain ++ '/' :: (imagesFolder ++ '/' :: ("None".data))) := by
    rw [rewriteRow_getD domain imagesFolder _ row j (nodup_imageColumnIndexes hnd)
      (fun i hi => by rw [hlen]; exact imageColumnIndexes_lt header i hi),
      if_pos ((mem_imageColumnIndexes hnd j).mpr ⟨hj, himg⟩), hcell]
    rfl
  exact ⟨h, by rw [h]; exact fun hx => Cell.noConfusion hx⟩

/-- C10 counterexample: with the image-column name `"image url"` appearing
twice in the header, the second image column's null cell is never rewritten —
it stays null instead of becoming `"{domain}/{images_folder}/None"`. -/
theorem c10_counterexample :
    isImageName (hdrC10.getD 1 Cell.null) = true
    ∧ rowC10.getD 1 Cell.null = Cell.null
    ∧ (rewriteRow ("d".data) ("f".data) (imageColumnIndexes hdrC10) rowC10).getD 1 Cell.null =
        Cell.null :=
  ⟨by decide, by decide, by decide⟩

/-- Witness for C10 at a concrete duplicate-free header with a null image
cell. -/
theorem c10_null_image_witness :
    (rewriteRow ("d".data) ("f".data) (imageColumnIndexes hdrC3)
        [Cell.str ("x".data), Cell.null]).getD 1 Cell.null = Cell.str ("d/f/None".data) := by
  rw [(c10_null_image_cell ("d".data) ("f".data) hdrC3 [Cell.str ("x".data), Cell.null] 1
    (by decide) (by decide) (by decide) (by decide) (by decide)).1]
  decide

/-! ### Claim C2: token substitution -/

theorem replaceList_token_lit_skip (nm v l rest : List Char) (hl : '[' ∉ l) :
    replaceList (token nm) v (l ++ rest) = l ++ replaceList (token nm) v rest :=
  replaceList_bracket_skip (nm ++ [']']) v rest hl

theorem cellOkStr_elim {c : Cell} (h : cellOkStr c = true) :
    ∃ s, c = Cell.str s ∧ '[' ∉ s := by
  cases c with
  | str s =>
    refine ⟨s, rfl, ?_⟩
    simpa [cellOkStr] using h
  | num n => simp [cellOkStr] at h
  | null => simp [cellOkStr] at h

theorem nameOk_elim {c : Cell} (h : nameOk c = true) :
    '[' ∉ pyStr c ∧ ']' ∉ pyStr c := by
  simpa [nameOk] using h

theorem tmplPartial_zero (header row : List Cell) :
    ∀ segs, tmplPartial header row 0 segs = tmplFlatten header segs := by
  intro segs
  induction segs with
  | nil => rfl
  | cons e rest ih =>
    cases e with
    | lit l => simp only [tmplPartial, tmplFlatten, ih]
    | tok i => simp only [tmplPartial, tmplFlatten, ih, Nat.not_lt_zero, if_false]

theorem tmplPartial_ge (header row : List Cell) (k : Nat) (hk : header.length ≤ k) :
    ∀ segs, (∀ e ∈ segs, segOk header.length e = true) →
      tmplPartial header row k segs = tmplSubst row segs := by
  intro segs
  induction segs with
  | nil => intro _; rfl
  | cons e rest ih =>
    intro hseg
    have hrest := fun x (hx : x ∈ rest) => hseg x (List.mem_cons.mpr (Or.inr hx))
    cases e with
    | lit l => simp only [tmplPartial, tmplSubst, ih hrest]
    | tok i =>
      have hi : i < header.length := by
        simpa [segOk] using hseg (Tmpl.tok i) (by simp)
      simp only [tmplPartial, tmplSubst, ih hrest, if_pos (by omega : i < k)]

theorem bracket_not_mem_tmplSubst (row : List Cell) (n : Nat)
    (hrow : ∀ c ∈ row, cellOkStr c = true) :
    ∀ segs, (∀ e ∈ segs, segOk n e = true) → '[' ∉ tmplSubst row segs := by
  intro segs
  induction segs with
  | nil => intro _; simp [tmplSubst]
  | cons e rest ih =>
    intro hseg
    have hrest := fun x (hx : x ∈ rest) => hseg x (List.mem_cons.mpr (Or.inr hx))
    cases e with
    | lit l =>
      have hl : '[' ∉ l := by
        simpa [segOk] using hseg (Tmpl.lit l) (by simp)
      simp only [tmplSubst, List.mem_append]
      rintro (h | h)
      · exact hl h
      · exact ih hrest h
    | tok i =>
      have hv : '[' ∉ strVal (row.getD i Cell.null) := by
        by_cases hi : i < row.length
        · obtain ⟨s, hs, hsfree⟩ := cellOkStr_elim (hrow _ (getD_mem row i Cell.null hi))
          rw [hs]
          exact hsfree
        · rw [List.getD_eq_default]
          · simp [strVal]
          · omega
      simp only [tmplSubst, List.mem_append]
      rintro (h | h)
      · exact hv h
      · exact ih hrest h

theorem strVal_mem_tmplSubst (row : List Cell) (i : Nat) :
    ∀ segs, Tmpl.tok i ∈ segs →
      isSubstring (strVal (row.getD i Cell.null)) (tmplSubst row segs) = true := by
  intro segs
  induction segs with
  | nil => intro hi; simp at hi
  | cons e rest ih =>
    intro hi
    rcases List.mem_cons.mp hi with he | hi'
    · rw [← he]
      exact isSubstring_self_append _ _
    · cases e with
      | lit l => exact isSubstring_append_left l (ih hi')
      | tok j => exact isSubstring_append_left _ (ih hi')

theorem pyStr_getD_ne (header : List Cell) (i k : Nat)
    (hhnd : (header.map pyStr).Nodup) (hi : i < header.length) (hk : k < header.length)
    (hik : i ≠ k) :
    pyStr (header.getD i Cell.null) ≠ pyStr (header.getD k Cell.null) := by
  intro he
  have hi' : i < (header.map pyStr).length := by simpa using hi
  have hk' : k < (header.map pyStr).length := by simpa using hk
  have hgi : (header.map pyStr)[i] = pyStr (header.getD i Cell.null) := by
    rw [List.getElem_map, List.getD_eq_getElem _ _ hi]
  have hgk : (header.map pyStr)[k] = pyStr (header.getD k Cell.null) := by
    rw [List.getElem_map, List.getD_eq_getElem _ _ hk]
  have hsame : (header.map pyStr)[i] = (header.map pyStr)[k] := by
    rw [hgi, hgk, he]
  exact hik (hhnd.getElem_inj_iff.mp hsame)

theorem replaceList_tmplPartial (header row : List Cell)
    (hrow : ∀ c ∈ row, cellOkStr c = true)
    (hname : ∀ c ∈ header, nameOk c = true)
    (hlen : row.length = header.length)
    (hhnd : (header.map pyStr).Nodup)
    (k : Nat) (hk : k < header.length) (v : List Char)
    (hv : row.getD k Cell.null = Cell.str v) :
    ∀ segs, (∀ e ∈ segs, segOk header.length e = true) →
      replaceList (token (pyStr (header.getD k Cell.null))) v
          (tmplPartial header row k segs) =
        tmplPartial header row (k + 1) segs := by
  intro segs
  induction segs with
  | nil => intro _; exact replaceList_nil _ _
  | cons e rest ih =>
    intro hseg
    have hrest := fun x (hx : x ∈ rest) => hseg x (List.mem_cons.mpr (Or.inr hx))
    cases e with
    | lit l =>
      have hl : '[' ∉ l := by
        simpa [segOk] using hseg (Tmpl.lit l) (by simp)
      show replaceList (token (pyStr (header.getD k Cell.null))) v
          (l ++ tmplPartial header row k rest) =
        l ++ tmplPartial header row (k + 1) rest
      rw [replaceList_token_lit_skip _ v l _ hl, ih hrest]
    | tok i =>
      have hi : i < header.length := by
        simpa [segOk] using hseg (Tmpl.tok i) (by simp)
      by_cases hik : i < k
      · obtain ⟨s, hs, hsfree⟩ := cellOkStr_elim
          (hrow _ (getD_mem row i Cell.null (by omega)))
        simp only [tmplPartial, if_pos hik, if_pos (by omega : i < k + 1)]
        rw [hs]
        show replaceList (token (pyStr (header.getD k Cell.null))) v
            (s ++ tmplPartial header row k rest) = s ++ tmplPartial header row (k + 1) rest
        rw [replaceList_token_lit_skip _ v s _ hsfree, ih hrest]
      · by_cases hik2 : i = k
        · subst hik2
          simp only [tmplPartial, if_neg hik, if_pos (Nat.lt_succ_self i)]
          rw [replaceList_head_match v _ (by simp [token]), ih hrest, hv]
          rfl
        · have hik3 : ¬ i < k + 1 := by omega
          simp only [tmplPartial, if_neg hik, if_neg hik3]
          have hne : pyStr (header.getD k Cell.null) ≠ pyStr (header.getD i Cell.null) :=
            fun he => pyStr_getD_ne header i k hhnd hi hk hik2 he.symm
          obtain ⟨hk1, hk2⟩ := nameOk_elim (hname _ (getD_mem header k Cell.null hk))
          obtain ⟨hi1, hi2⟩ := nameOk_elim (hname _ (getD_mem header i Cell.null hi))
          rw [replaceList_token_skip _ _ v _ hne hk2 hi1 hi2, ih hrest]

theorem renderRow_fold (header row : List Cell) (segs : List Tmpl)
    (hlen : row.length = header.length) (hnd : row.Nodup)
    (hhnd : (header.map pyStr).Nodup)
    (hrow : ∀ c ∈ row, cellOkStr c = true)
    (hname : ∀ c ∈ header, nameOk c = true)
    (hseg : ∀ e ∈ segs, segOk header.length e = true) :
    ∀ (l : List Cell) (k : Nat), row.drop k = l →
      List.foldlM (renderStep header row) (tmplPartial header row k segs) l =
        Except.ok (tmplSubst row segs) := by
  intro l
  induction l with
  | nil =>
    intro k hk
    have hge : row.length ≤ k := List.drop_eq_nil_iff.mp hk
    rw [List.foldlM_nil, tmplPartial_ge header row k (by omega) segs hseg]
    rfl
  | cons c l' ih =>
    intro k hk
    have hk1 : row.drop (k + 1) = l' := by
      rw [← List.tail_drop, hk]
      rfl
    have hklt : k < row.length := by
      by_contra hge
      have hnil : row.drop k = [] := List.drop_eq_nil_iff.mpr (by omega)
      rw [hk] at hnil
      simp at hnil
    have hck : row[k]? = some c := by
      have h0 := List.getElem?_drop row k 0
      rw [hk] at h0
      simpa using h0.symm
    have hcd : row.getD k Cell.null = c := by
      rw [List.getD_eq_getElem _ _ hklt]
      rw [List.getElem?_eq_getElem hklt] at hck
      exact Option.some.inj hck
    have hcmem : c ∈ row := by
      rw [← hcd]
      exact getD_mem row k Cell.null hklt
    obtain ⟨v, hv, _hvfree⟩ := cellOkStr_elim (hrow c hcmem)
    have hidx : List.indexOf c row = k := by
      rw [← hcd]
      exact nodup_indexOf_getD row k Cell.null hnd hklt
    have hstep : renderStep header row (tmplPartial header row k segs) c =
        Except.ok (tmplPartial header row (k + 1) segs) := by
      subst hv
      simp only [renderStep, hidx]
      rw [dif_pos (by omega : k < header.length)]
      rw [replaceList_tmplPartial header row hrow hname hlen hhnd k (by omega) v
        (by rw [hcd]) segs hseg]
    rw [List.foldlM_cons, hstep]
    exact ih (k + 1) hk1

/-- C2 (amended): for a data row of pairwise-distinct string cells free of
`'['`, a header whose stringified names are pairwise distinct and free of both
brackets, and a template that interleaves bracket-free literal text with
`[<column-name>]` tokens of header columns, the substitution loop succeeds and
returns exactly the template with every token `[header j]` replaced by the
row's cell `j`; hence the output contains no remaining `[<name>]` token for
ANY column name present in the header, and every cell whose token occurs in
the template appears verbatim as a substring of the output.  (When two cells
of the row hold the same value the claim fails: `row.index(cell)` resolves
both to the first column, leaving the second column's token unreplaced — see
the counterexample.) -/
theorem c2_render_substitution (header row : List Cell) (segs : List Tmpl)
    (hlen : row.length = header.length) (hnd : row.Nodup)
    (hhnd : (header.map pyStr).Nodup)
    (hrow : ∀ c ∈ row, cellOkStr c = true)
    (hname : ∀ c ∈ header, nameOk c = true)
    (hseg : ∀ e ∈ segs, segOk header.length e = true) :
    renderRow header row (tmplFlatten header segs) = Except.ok (tmplSubst row segs)
    ∧ (∀ c ∈ header, isSubstring (token (pyStr c)) (tmplSubst row segs) = false)
    ∧ (∀ i, Tmpl.tok i ∈ segs →
        isSubstring (strVal (row.getD i Cell.null)) (tmplSubst row segs) = true) := by
  refine ⟨?_, ?_, ?_⟩
  · unfold renderRow
    rw [← tmplPartial_zero header row segs]
    exact renderRow_fold header row segs hlen hnd hhnd hrow hname hseg row 0 rfl
  · intro c _hc
    exact isSubstring_false_of_not_mem (a := '[') (by simp [token])
      (bracket_not_mem_tmplSubst row header.length hrow segs hseg)
  · intro i hi
    exact strVal_mem_tmplSubst row i segs hi

/-- C2 counterexample: with header columns `a, b` and a row holding the SAME
string `"x"` in both cells, `row.index(cell)` resolves the second iteration to
the first column again, so `[a]` is substituted twice and the `[b]` token
survives in the output — the claim's "no remaining token for any header
column" fails. -/
theorem c2_counterexample :
    renderRow hdrC2 rowC2 ("[a][b]".data) = Except.ok ("x[b]".data)
    ∧ Cell.str ("b".data) ∈ hdrC2
    ∧ isSubstring (token (pyStr (Cell.str ("b".data)))) ("x[b]".data) = true :=
  ⟨by decide, by decide, by decide⟩

/-- Witness for C2 at a concrete template `<h1>[a]</h1>[b]` and row
`("Home", "Welcome")`: rendering substitutes both tokens, no token of either
header column survives, and both cell values appear verbatim. -/
theorem c2_render_witness :
    renderRow hdrC2 [Cell.str ("Home".data), Cell.str ("Welcome".data)]
        (tmplFlatten hdrC2
          [Tmpl.lit ("<h1>".data), Tmpl.tok 0, Tmpl.lit ("</h1>".data), Tmpl.tok 1]) =
      Except.ok (tmplSubst [Cell.str ("Home".data), Cell.str ("Welcome".data)]
        [Tmpl.lit ("<h1>".data), Tmpl.tok 0, Tmpl.lit ("</h1>".data), Tmpl.tok 1])
    ∧ isSubstring (token (pyStr (Cell.str ("a".data))))
        (tmplSubst [Cell.str ("Home".data), Cell.str ("Welcome".data)]
          [Tmpl.lit ("<h1>".data), Tmpl.tok 0, Tmpl.lit ("</h1>".data), Tmpl.tok 1]) = false
    ∧ isSubstring (strVal (([Cell.str ("Home".data), Cell.str ("Welcome".data)] :
          List Cell).getD 1 Cell.null))
        (tmplSubst [Cell.str ("Home".data), Cell.str ("Welcome".data)]
          [Tmpl.lit ("<h1>".data), Tmpl.tok 0, Tmpl.lit ("</h1>".data), Tmpl.tok 1]) = true := by
  have h := c2_render_substitution hdrC2 [Cell.str ("Home".data), Cell.str ("Welcome".data)]
    [Tmpl.lit ("<h1>".data), Tmpl.tok 0, Tmpl.lit ("</h1>".data), Tmpl.tok 1]
    (by decide) (by decide) (by decide) (by decide) (by decide) (by decide)
  exact ⟨h.1, h.2.1 (Cell.str ("a".data)) (by decide), h.2.2 1 (by decide)⟩
